import Mathlib

/-!
Verification of the LLM Bridge Core (yomo) against its specification.

The definitions below are a shallow embedding of the Go source:

- the tool registry of the Azure OpenAI provider
  (RegisterFunction, UnregisterFunction, ListToolCalls),
- the orchestrator Service (addToolsToRequest, OpSystemPrompt, findTools,
  mapToSliceTools, the streaming first-call loop with tool-call
  reassembly, and the follow-up request synthesis),
- the AIRegisterFunctionFrame codec (encode and decode over a TLV byte
  format).

Go maps are embedded as association lists with replace-on-insert update,
Go slices as lists, Go strings as Lean strings (or UTF-8 byte lists in
the codec), Go int as Int, and fallible code as Option.
-/

namespace Yomo

/-- Association list lookup: first entry with the given key. -/
def lookupAssoc {κ α : Type} [DecidableEq κ] : List (κ × α) → κ → Option α
  | [], _ => none
  | (k, v) :: rest, k₀ => if k₀ = k then some v else lookupAssoc rest k₀

/-- Association list update, mirroring Go map assignment: replace the
entry with the given key if present, otherwise append a new entry. -/
def updateAssoc {κ α : Type} [DecidableEq κ] : List (κ × α) → κ → α → List (κ × α)
  | [], k₀, v₀ => [(k₀, v₀)]
  | (k, v) :: rest, k₀, v₀ =>
    if k₀ = k then (k, v₀) :: rest else (k, v) :: updateAssoc rest k₀ v₀

/-- Association list deletion, mirroring Go delete: remove every entry
with the given key (at most one when keys are distinct). -/
def eraseAssoc {κ α : Type} [DecidableEq κ] : List (κ × α) → κ → List (κ × α)
  | [], _ => []
  | (k, v) :: rest, k₀ =>
    if k₀ = k then eraseAssoc rest k₀ else (k, v) :: eraseAssoc rest k₀

/-- openai.FunctionCall: the called function as reassembled by the
orchestrator, name plus JSON-text arguments. -/
structure FunctionCall where
  name : String
  arguments : String
deriving DecidableEq, Repr, Inhabited

/-- openai.ToolCall / ai.ToolCall: one tool invocation request.  The
index field only appears in stream responses. -/
structure ToolCall where
  index : Option Int
  id : String
  type : String
  function : FunctionCall
deriving DecidableEq, Repr, Inhabited

/-- ai.FunctionDefinition: name and description of a registered tool
function (the JSON schema of the parameters is opaque here). -/
structure FunctionDefinition where
  name : String
  description : String
deriving DecidableEq, Repr, Inhabited

/-- openai.Tool / the registry value ai.ToolCall in the azopenai
provider: a typed tool with its function definition. -/
structure Tool where
  type : String
  function : FunctionDefinition
deriving DecidableEq, Repr, Inhabited

/-- openai.ChatCompletionMessage: the fields the orchestrator reads and
writes. -/
structure ChatCompletionMessage where
  role : String
  content : String
  toolCallID : String
  toolCalls : List ToolCall
deriving DecidableEq, Repr, Inhabited

/-- openai.Usage: token usage of one completion call. -/
structure Usage where
  promptTokens : Int
  completionTokens : Int
  totalTokens : Int
deriving DecidableEq, Repr, Inhabited

/-- openai.ChatCompletionRequest: the fields the orchestrator reads and
writes.  ToolChoice is opaque to the orchestrator, which only ever
clears it, so it is embedded as an Option over an opaque string. -/
structure ChatCompletionRequest where
  messages : List ChatCompletionMessage
  tools : List Tool
  toolChoice : Option String
  stream : Bool
deriving DecidableEq, Repr, Inhabited

/-! ## Tool registry (azopenai provider) -/

/-- The process-wide tools variable of the azopenai provider:
map from appID to a map from tag (u32) to tool.  Both Go maps are
embedded as association lists. -/
def RegistryState : Type := List (String × List (Nat × Tool))

instance : Inhabited RegistryState := ⟨[]⟩

/-- The empty registry, as created by the init function of the
provider package. -/
def emptyRegistry : RegistryState := []

/-- AzureOpenAIProvider.RegisterFunction: fetch the appID entry
(fresh when absent), assign the tool at the tag, and store the entry
back. -/
def RegisterFunction (s : RegistryState) (appID : String) (tag : Nat)
    (functionDefinition : FunctionDefinition) : RegistryState :=
  let appTools := (lookupAssoc s appID).getD []
  let appTools := updateAssoc appTools tag
    { type := "function", function := functionDefinition }
  updateAssoc s appID appTools

/-- AzureOpenAIProvider.UnregisterFunction: collect the tags whose tool
has the given function name, delete each of them, and store the entry
back. -/
def UnregisterFunction (s : RegistryState) (appID : String) (name : String) :
    RegistryState :=
  match lookupAssoc s appID with
  | none => s
  | some appTools =>
    let tags := (appTools.filter (fun tv => tv.2.function.name = name)).map Prod.fst
    let appTools := tags.foldl (fun acc tag => eraseAssoc acc tag) appTools
    updateAssoc s appID appTools

/-- AzureOpenAIProvider.ListToolCalls: the appID entry, empty when
absent. -/
def ListToolCalls (s : RegistryState) (appID : String) : List (Nat × Tool) :=
  (lookupAssoc s appID).getD []

/-- Registry states reachable from the initial empty registry through
the register and unregister operations. -/
inductive Reachable : RegistryState → Prop where
  | empty : Reachable emptyRegistry
  | register {s} (appID : String) (tag : Nat) (fd : FunctionDefinition) :
      Reachable s → Reachable (RegisterFunction s appID tag fd)
  | unregister {s} (appID : String) (name : String) :
      Reachable s → Reachable (UnregisterFunction s appID name)

/-! ## System prompt operation -/

/-- The system prompt operation constants SystemPromptOpDisabled,
SystemPromptOpOverwrite and SystemPromptOpPrefix. -/
inductive SystemPromptOp where
  | disabled
  | overwrite
  | prefixOp
deriving DecidableEq, Repr

/-- The message-rewriting loop inside Service.OpSystemPrompt: walk the
messages keeping every non-system message; the first system message is
kept with rewritten content, later system messages are dropped.
Returns the rewritten list and the number of system messages seen. -/
def opSystemPromptLoop (sysPrompt : String) (op : SystemPromptOp) :
    List ChatCompletionMessage → Nat → List ChatCompletionMessage × Nat
  | [], systemCount => ([], systemCount)
  | msg :: rest, systemCount =>
    if msg.role ≠ "system" then
      let r := opSystemPromptLoop sysPrompt op rest systemCount
      (msg :: r.1, r.2)
    else
      if systemCount = 0 then
        let content :=
          match op with
          | SystemPromptOp.prefixOp => sysPrompt ++ "\n" ++ msg.content
          | SystemPromptOp.overwrite => sysPrompt
          | SystemPromptOp.disabled => ""
        let r := opSystemPromptLoop sysPrompt op rest (systemCount + 1)
        (({ role := msg.role, content := content, toolCallID := "",
            toolCalls := [] } : ChatCompletionMessage) :: r.1, r.2)
      else
        opSystemPromptLoop sysPrompt op rest (systemCount + 1)

/-- Service.OpSystemPrompt: apply the configured system prompt operation
to the request messages. -/
def OpSystemPrompt (req : ChatCompletionRequest) (sysPrompt : String)
    (op : SystemPromptOp) : ChatCompletionRequest :=
  if op = SystemPromptOp.disabled then req
  else if op = SystemPromptOp.overwrite ∧ sysPrompt = "" then req
  else
    let r := opSystemPromptLoop sysPrompt op req.messages 0
    if r.2 = 0 ∧ sysPrompt ≠ "" then
      { req with messages :=
          ({ role := "system", content := sysPrompt, toolCallID := "",
             toolCalls := [] } : ChatCompletionMessage) :: req.messages }
    else
      { req with messages := r.1 }

/-! ## Request preparation -/

/-- Service.addToolsToRequest: if the client request already carries
tools, leave it alone and report hasReqTools; otherwise attach the
registry snapshot when non-empty. -/
def addToolsToRequest (req : ChatCompletionRequest) (tools : List Tool) :
    ChatCompletionRequest × Bool :=
  let hasReqTools := decide (req.tools.length > 0)
  if hasReqTools then (req, true)
  else if tools.length > 0 then ({ req with tools := tools }, false)
  else (req, false)

/-- findTools: restrict the emitted tool calls to those whose function
name and type match some tool of the registry snapshot (one output
entry per matching pair, in tool-call-major order). -/
def findTools (tools : List Tool) (toolCalls : List ToolCall) : List ToolCall :=
  toolCalls.foldl
    (fun fnCalls call =>
      fnCalls ++ (tools.filter
        (fun tool => tool.function.name = call.function.name ∧
          tool.type = call.type)).map (fun _ => call))
    []

/-! ## Streaming first call: tool-call reassembly -/

/-- One element of delta.tool_calls in a stream chunk: the index always
present in stream responses, plus the partial id, type, function name
and argument fragment. -/
structure StreamToolCallDelta where
  index : Int
  id : String
  type : String
  name : String
  arguments : String
deriving DecidableEq, Repr, Inhabited

/-- The body of the reassembly loop for a single delta at an already
looked-up map entry (none when the index was not yet seen): create the
entry from the delta when absent, then append a non-empty argument
fragment and take a non-empty function name. -/
def stepOne (entry : Option ToolCall) (t : StreamToolCallDelta) : ToolCall :=
  let item :=
    match entry with
    | none =>
      ({ index := some t.index, id := t.id, type := t.type,
         function := { name := "", arguments := "" } } : ToolCall)
    | some item => item
  let item :=
    if t.arguments ≠ "" then
      { item with function := { item.function with
          arguments := item.function.arguments ++ t.arguments } }
    else item
  if t.name ≠ "" then
    { item with function := { item.function with name := t.name } }
  else item

/-- One iteration of the reassembly loop over toolCallsMap, keyed by
the delta index. -/
def stepToolCallDelta (m : List (Int × ToolCall)) (t : StreamToolCallDelta) :
    List (Int × ToolCall) :=
  updateAssoc m t.index (stepOne (lookupAssoc m t.index) t)

/-- The reassembly state machine: fold every streamed tool-call delta,
in stream order, into the map keyed by index. -/
def reassembleToolCalls (deltas : List StreamToolCallDelta) :
    List (Int × ToolCall) :=
  deltas.foldl stepToolCallDelta []

/-- Concatenation, in stream order, of the argument fragments of a
delta sequence. -/
def concatArgs (deltas : List StreamToolCallDelta) : String :=
  deltas.foldl (fun acc t => acc ++ t.arguments) ""

/-- The last non-empty function name of a delta sequence, starting from
a previous value. -/
def lastName (init : String) (deltas : List StreamToolCallDelta) : String :=
  deltas.foldl (fun acc t => if t.name ≠ "" then t.name else acc) init

/-! ## mapToSliceTools -/

/-- The write loop of mapToSliceTools: place each map entry at the
slice position given by its key.  A key outside the slice bounds is an
out-of-range slice write in Go, embedded as a failing Option. -/
def mapToSliceToolsAux : List (Int × ToolCall) → List ToolCall →
    Option (List ToolCall)
  | [], arr => some arr
  | (k, v) :: rest, arr =>
    if 0 ≤ k ∧ k.toNat < arr.length then
      mapToSliceToolsAux rest (arr.set k.toNat v)
    else none

/-- mapToSliceTools: convert the reassembled tool-call map into a slice
of the same size, each entry written at the position of its key. -/
def mapToSliceTools (m : List (Int × ToolCall)) : Option (List ToolCall) :=
  mapToSliceToolsAux m (List.replicate m.length default)

/-! ## Streaming first call: the chunk loop -/

/-- The delta of choices[0] in a stream chunk. -/
structure StreamDelta where
  content : String
  toolCalls : List StreamToolCallDelta
deriving DecidableEq, Repr, Inhabited

/-- One choice of a stream chunk. -/
structure StreamChoice where
  delta : StreamDelta
deriving DecidableEq, Repr, Inhabited

/-- openai.ChatCompletionStreamResponse: the fields the first-call loop
reads.  promptFilterCount is the length of PromptFilterResults. -/
structure ChatCompletionStreamResponse where
  promptFilterCount : Nat
  usage : Option Usage
  choices : List StreamChoice
deriving DecidableEq, Repr, Inhabited

/-- An event written to the client response: a forwarded chunk, the
informational tool-call and tool-result events, or the terminal
data [DONE] marker. -/
inductive StreamEvent where
  | chunk : ChatCompletionStreamResponse → StreamEvent
  | toolCallsEvent : List ToolCall → StreamEvent
  | toolResultsEvent : List (String × String) → StreamEvent
  | done : StreamEvent
deriving DecidableEq, Repr

/-- Outcome of the streaming first call: either the response is
finished (stream done was written, no dispatch and no second call), or
the orchestrator proceeds to tool dispatch with the reassembled
tool-call slice and the captured usage. -/
inductive FirstPhaseResult where
  | finished : List StreamEvent → FirstPhaseResult
  | dispatch : List StreamEvent → List ToolCall → Int × Int × Int →
      FirstPhaseResult
deriving DecidableEq, Repr

/-- The chunk loop of the streaming first call in
Service.GetChatCompletions.  State: isFunctionCall flag, the
reassembly map, the captured usage triple, and the events written so
far.  After end of stream: when no function call was seen or the
client brought its own tools, write stream done and finish; otherwise
convert the map to a slice (a possible out-of-range panic, hence
Option) and proceed to dispatch. -/
def firstPhaseLoop (hasReqTools : Bool) :
    List ChatCompletionStreamResponse → Bool → List (Int × ToolCall) →
    Int × Int × Int → List StreamEvent → Option FirstPhaseResult
  | [], isFunctionCall, m, usage, events =>
    if ¬isFunctionCall ∨ hasReqTools then
      some (FirstPhaseResult.finished (events ++ [StreamEvent.done]))
    else
      match mapToSliceTools m with
      | none => none
      | some toolCalls => some (FirstPhaseResult.dispatch events toolCalls usage)
  | c :: rest, isFunctionCall, m, usage, events =>
    if hasReqTools then
      firstPhaseLoop hasReqTools rest isFunctionCall m usage
        (events ++ [StreamEvent.chunk c])
    else if c.promptFilterCount > 0 then
      firstPhaseLoop hasReqTools rest isFunctionCall m usage events
    else
      let usage :=
        match c.usage with
        | some u => (u.promptTokens, u.completionTokens, u.totalTokens)
        | none => usage
      match c.choices with
      | choice :: _ =>
        if choice.delta.toolCalls.length > 0 then
          firstPhaseLoop hasReqTools rest true
            (choice.delta.toolCalls.foldl stepToolCallDelta m) usage events
        else if ¬isFunctionCall then
          firstPhaseLoop hasReqTools rest isFunctionCall m usage
            (events ++ [StreamEvent.chunk c])
        else
          firstPhaseLoop hasReqTools rest isFunctionCall m usage events
      | [] =>
        if ¬isFunctionCall then
          firstPhaseLoop hasReqTools rest isFunctionCall m usage
            (events ++ [StreamEvent.chunk c])
        else
          firstPhaseLoop hasReqTools rest isFunctionCall m usage events

/-- The streaming first call over a whole upstream chunk sequence,
starting from the initial loop state. -/
def firstPhaseStream (hasReqTools : Bool)
    (chunks : List ChatCompletionStreamResponse) : Option FirstPhaseResult :=
  firstPhaseLoop hasReqTools chunks false [] (0, 0, 0) []

/-! ## Tool dispatch and the follow-up call -/

/-- A tool result delivered by the Caller: the tool call id and the
result content. -/
structure ToolResult where
  toolCallID : String
  content : String
deriving DecidableEq, Repr, Inhabited

/-- Modelled from the spec: Caller.Call is not part of the sources
(only its call sites are).  Section 4.4 of the specification fixes its
contract: for every tool call dispatched exactly one result is
yielded, and results are ordered identically to the input tool calls,
so results[i].toolCallID = toolCalls[i].id.  The content of each
result (worker reply or synthetic empty result) is an oracle indexed
by position. -/
def callerCall (fnCalls : List ToolCall) (contents : Nat → String) :
    List ToolResult :=
  (List.range fnCalls.length).map
    (fun i => { toolCallID := (fnCalls.getD i default).id, content := contents i })

/-- The llmCalls loop of Service.GetChatCompletions: one tool-role
message per call result, carrying its tool call id and content. -/
def llmCallMessages (callResult : List ToolResult) : List ChatCompletionMessage :=
  callResult.map (fun v =>
    { role := "tool", content := v.content, toolCallID := v.toolCallID,
      toolCalls := [] })

/-- The follow-up request synthesis of Service.GetChatCompletions:
clear ToolChoice, set the messages to the original request messages
followed by the captured assistant message and the tool messages, and
clear Tools unless the provider is anthropic. -/
def prepareSecondCallRequest (providerName : String)
    (req : ChatCompletionRequest) (reqMessages : List ChatCompletionMessage)
    (assistantMessage : ChatCompletionMessage)
    (llmCalls : List ChatCompletionMessage) : ChatCompletionRequest :=
  let req := { req with toolChoice := none }
  let req := { req with messages := reqMessages ++ [assistantMessage] ++ llmCalls }
  if providerName ≠ "anthropic" then { req with tools := [] } else req

/-! ## Usage accumulation (non-streaming path) -/

/-- The first-call usage capture in the non-streaming path: promptUsage
and completionUsage from the respective fields, and totalUsage from the
CompletionTokens field (as written in the source). -/
def nonStreamFirstCallUsage (u : Usage) : Int × Int × Int :=
  (u.promptTokens, u.completionTokens, u.completionTokens)

/-- The second-call usage accumulation: add the captured first-call
usage triple into the response usage, field by field. -/
def addFirstCallUsage (u : Usage) (captured : Int × Int × Int) : Usage :=
  { promptTokens := u.promptTokens + captured.1,
    completionTokens := u.completionTokens + captured.2.1,
    totalTokens := u.totalTokens + captured.2.2 }

/-- The usage of the final response of the non-streaming path with a
tool dispatch: second-call usage plus captured first-call usage. -/
def nonStreamFinalUsage (firstCall secondCall : Usage) : Usage :=
  addFirstCallUsage secondCall (nonStreamFirstCallUsage firstCall)

/-! ## AIRegisterFunctionFrame codec

The encode and decode functions live in the y3codec package of the
sources; the primitive packet layer they call (the y3 library) is not
part of the sources, so its byte format is modelled from the
specification: every field is a tag byte followed by a length prefix
and the payload, strings travel as UTF-8 bytes, and 32-bit integers as
big-endian bytes.  Bytes are embedded as natural numbers below 256.
-/

/-- Fuelled worker for the varint encoder; the fuel only serves
structural recursion and is always sufficient at the call site. -/
def encVarintAux : Nat → Nat → List Nat
  | 0, n => [n]
  | fuel + 1, n =>
    if n < 128 then [n]
    else (n % 128 + 128) :: encVarintAux fuel (n / 128)

/-- Modelled from the spec: the length prefix of a TLV block, a
base-128 varint (low groups first, high bit of a byte marking a
continuation). -/
def encVarint (n : Nat) : List Nat :=
  encVarintAux n n

/-- Modelled from the spec: read one varint length prefix, returning
the value and the remaining bytes. -/
def decVarint : List Nat → Option (Nat × List Nat)
  | [] => none
  | b :: rest =>
    if b < 128 then some (b, rest)
    else
      match decVarint rest with
      | none => none
      | some (n, r) => some (n * 128 + (b - 128), r)

/-- Modelled from the spec: one TLV block, a tag byte, the varint
length of the payload, and the payload bytes. -/
def encBlock (tag : Nat) (payload : List Nat) : List Nat :=
  tag :: encVarint payload.length ++ payload

/-- Concatenation of the TLV blocks of a field list. -/
def encFields (fields : List (Nat × List Nat)) : List Nat :=
  (fields.map (fun f => encBlock f.1 f.2)).flatten

/-- Modelled from the spec: read one TLV block, returning the tag, the
payload and the remaining bytes; a length running past the end of the
input is a short frame. -/
def parseBlock : List Nat → Option ((Nat × List Nat) × List Nat)
  | [] => none
  | t :: rest =>
    match decVarint rest with
    | none => none
    | some (len, rest2) =>
      if len ≤ rest2.length then some ((t, rest2.take len), rest2.drop len)
      else none

/-- Modelled from the spec: read TLV blocks until the input is
exhausted, with fuel bounded by the input length (each block consumes
at least one byte). -/
def parseFieldsAux : Nat → List Nat → Option (List (Nat × List Nat))
  | _, [] => some []
  | 0, _ :: _ => none
  | fuel + 1, bs =>
    match parseBlock bs with
    | none => none
    | some (f, rest) =>
      match parseFieldsAux fuel rest with
      | none => none
      | some fs => some (f :: fs)

/-- Modelled from the spec: parse the field blocks of a node body. -/
def parseFields (bs : List Nat) : Option (List (Nat × List Nat)) :=
  parseFieldsAux bs.length bs

/-- The payload of the last block carrying the given tag: the decoder
collects blocks into a Go map keyed by the tag byte, so a later
duplicate overwrites an earlier one. -/
def lookupLast (fields : List (Nat × List Nat)) (t : Nat) : Option (List Nat) :=
  lookupAssoc fields.reverse t

/-- Modelled from the spec: a u32 value as four big-endian bytes. -/
def be32 (n : Nat) : List Nat :=
  [n / 2 ^ 24 % 256, n / 2 ^ 16 % 256, n / 2 ^ 8 % 256, n % 256]

/-- Modelled from the spec: a u32 value from four big-endian bytes;
any other payload shape fails the decode. -/
def decBe32 : List Nat → Option Nat
  | [a, b, c, d] => some (a * 2 ^ 24 + b * 2 ^ 16 + c * 2 ^ 8 + d)
  | _ => none

/-- frame.AIRegisterFunctionFrame: appID and name as UTF-8 byte
sequences, the u32 tag, and the raw definition bytes. -/
structure AIRegisterFunctionFrame where
  appID : List Nat
  name : List Nat
  tag : Nat
  definition : List Nat
deriving DecidableEq, Repr, Inhabited

/-- The single-byte tags of the inner fields of the register frame. -/
def tagAIRegisterFunctionAppID : Nat := 0x01

/-- Field tag of the function name. -/
def tagAIRegisterFunctionName : Nat := 0x02

/-- Field tag of the u32 routing tag. -/
def tagAIRegisterFunctionTag : Nat := 0x03

/-- Field tag of the definition bytes. -/
def tagAIRegisterFunctionDefinition : Nat := 0x04

/-- The outer node tag identifying the frame kind (its concrete value
is irrelevant to the decoder, which reads the fields only). -/
def aiRegisterFunctionFrameType : Nat := 0x61

/-- The four inner field blocks of a register frame, in the order the
encoder writes them. -/
def registerFrameFields (f : AIRegisterFunctionFrame) : List (Nat × List Nat) :=
  [(tagAIRegisterFunctionAppID, f.appID),
   (tagAIRegisterFunctionName, f.name),
   (tagAIRegisterFunctionTag, be32 f.tag),
   (tagAIRegisterFunctionDefinition, f.definition)]

/-- encodeAIRegisterFunctionFrame: the outer node block holding the
four primitive field blocks. -/
def encodeAIRegisterFunctionFrame (f : AIRegisterFunctionFrame) : List Nat :=
  encBlock aiRegisterFunctionFrameType (encFields (registerFrameFields f))

/-- decodeAIRegisterFunctionFrame: parse the outer node, collect the
inner blocks into a tag-keyed map, and fill each recognized field from
its payload; unrecognized tags are ignored and absent fields keep the
zero value. -/
def decodeAIRegisterFunctionFrame (data : List Nat) :
    Option AIRegisterFunctionFrame :=
  match parseBlock data with
  | none => none
  | some ((_, body), _) =>
    match parseFields body with
    | none => none
    | some fields =>
      let f0 : AIRegisterFunctionFrame :=
        { appID := [], name := [], tag := 0, definition := [] }
      let f1 :=
        match lookupLast fields tagAIRegisterFunctionAppID with
        | none => f0
        | some p => { f0 with appID := p }
      let f2 :=
        match lookupLast fields tagAIRegisterFunctionName with
        | none => f1
        | some p => { f1 with name := p }
      match
        (match lookupLast fields tagAIRegisterFunctionTag with
         | none => some f2
         | some p =>
           match decBe32 p with
           | none => none
           | some v => some { f2 with tag := v }) with
      | none => none
      | some f3 =>
        match lookupLast fields tagAIRegisterFunctionDefinition with
        | none => some f3
        | some p => some { f3 with definition := p }

/-! ## Helper lemmas on association lists -/

theorem lookupAssoc_updateAssoc_self {κ α : Type} [DecidableEq κ]
    (m : List (κ × α)) (k : κ) (v : α) :
    lookupAssoc (updateAssoc m k v) k = some v := by
  induction m with
  | nil => simp [updateAssoc, lookupAssoc]
  | cons kv rest ih =>
    obtain ⟨k0, v0⟩ := kv
    by_cases h : k = k0
    · subst h
      simp [updateAssoc, lookupAssoc]
    · simp [updateAssoc, lookupAssoc, h, ih]

theorem lookupAssoc_updateAssoc_ne {κ α : Type} [DecidableEq κ]
    (m : List (κ × α)) (k k₁ : κ) (v : α) (hne : k₁ ≠ k) :
    lookupAssoc (updateAssoc m k v) k₁ = lookupAssoc m k₁ := by
  induction m with
  | nil => simp [updateAssoc, lookupAssoc, hne]
  | cons kv rest ih =>
    obtain ⟨k0, v0⟩ := kv
    by_cases h : k = k0
    · subst h
      by_cases h1 : k₁ = k
      · exact absurd h1 hne
      · simp [updateAssoc, lookupAssoc, h1]
    · by_cases h1 : k₁ = k0
      · subst h1
        simp [updateAssoc, lookupAssoc, h]
      · simp [updateAssoc, lookupAssoc, h, h1, ih]

theorem mem_keys_updateAssoc {κ α : Type} [DecidableEq κ]
    {m : List (κ × α)} {k a : κ} {v : α}
    (ha : a ∈ (updateAssoc m k v).map Prod.fst) :
    a ∈ m.map Prod.fst ∨ a = k := by
  induction m with
  | nil =>
    rw [show updateAssoc ([] : List (κ × α)) k v = [(k, v)] from rfl] at ha
    rcases List.mem_map.mp ha with ⟨x, hx, hxa⟩
    rcases List.mem_singleton.mp hx with rfl
    exact Or.inr hxa.symm
  | cons kv rest ih =>
    obtain ⟨k0, v0⟩ := kv
    by_cases h : k = k0
    · subst h
      rw [show updateAssoc ((k, v0) :: rest) k v = (k, v) :: rest by
            simp [updateAssoc]] at ha
      rw [List.map_cons, List.mem_cons] at ha
      rcases ha with h1 | h1
      · exact Or.inr h1
      · exact Or.inl (by rw [List.map_cons]; exact List.mem_cons_of_mem _ h1)
    · rw [show updateAssoc ((k0, v0) :: rest) k v =
            (k0, v0) :: updateAssoc rest k v by simp [updateAssoc, h]] at ha
      rw [List.map_cons, List.mem_cons] at ha
      rcases ha with h1 | h1
      · exact Or.inl (by rw [List.map_cons, h1]; exact List.mem_cons_self _ _)
      · rcases ih h1 with h2 | h2
        · exact Or.inl (by rw [List.map_cons]; exact List.mem_cons_of_mem _ h2)
        · exact Or.inr h2

theorem nodup_keys_updateAssoc {κ α : Type} [DecidableEq κ]
    {m : List (κ × α)} (hm : (m.map Prod.fst).Nodup) (k : κ) (v : α) :
    ((updateAssoc m k v).map Prod.fst).Nodup := by
  induction m with
  | nil =>
    rw [show updateAssoc ([] : List (κ × α)) k v = [(k, v)] from rfl]
    simp
  | cons kv rest ih =>
    obtain ⟨k0, v0⟩ := kv
    rw [List.map_cons, List.nodup_cons] at hm
    by_cases h : k = k0
    · subst h
      rw [show updateAssoc ((k, v0) :: rest) k v = (k, v) :: rest by
            simp [updateAssoc]]
      rw [List.map_cons, List.nodup_cons]
      exact hm
    · rw [show updateAssoc ((k0, v0) :: rest) k v =
            (k0, v0) :: updateAssoc rest k v by simp [updateAssoc, h]]
      rw [List.map_cons, List.nodup_cons]
      refine ⟨?_, ih hm.2⟩
      intro hmem
      rcases mem_keys_updateAssoc hmem with h1 | h1
      · exact hm.1 h1
      · exact h h1.symm

theorem mem_updateAssoc_nodup {κ α : Type} [DecidableEq κ]
    {m : List (κ × α)} (hm : (m.map Prod.fst).Nodup) {k : κ} {v : α}
    {x : κ × α} (hx : x ∈ updateAssoc m k v) :
    x = (k, v) ∨ (x ∈ m ∧ x.1 ≠ k) := by
  induction m with
  | nil =>
    rw [show updateAssoc ([] : List (κ × α)) k v = [(k, v)] from rfl] at hx
    exact Or.inl (List.mem_singleton.mp hx)
  | cons kv rest ih =>
    obtain ⟨k0, v0⟩ := kv
    rw [List.map_cons, List.nodup_cons] at hm
    by_cases h : k = k0
    · subst h
      rw [show updateAssoc ((k, v0) :: rest) k v = (k, v) :: rest by
            simp [updateAssoc]] at hx
      rcases List.mem_cons.mp hx with h1 | h1
      · exact Or.inl h1
      · refine Or.inr ⟨List.mem_cons_of_mem _ h1, ?_⟩
        intro hk
        exact hm.1 (hk ▸ List.mem_map.mpr ⟨x, h1, rfl⟩)
    · rw [show updateAssoc ((k0, v0) :: rest) k v =
            (k0, v0) :: updateAssoc rest k v by simp [updateAssoc, h]] at hx
      rcases List.mem_cons.mp hx with h1 | h1
      · refine Or.inr ⟨h1 ▸ List.mem_cons_self _ _, ?_⟩
        rw [h1]
        intro hk
        exact h hk.symm
      · rcases ih hm.2 h1 with h2 | h2
        · exact Or.inl h2
        · exact Or.inr ⟨List.mem_cons_of_mem _ h2.1, h2.2⟩

theorem eraseAssoc_sublist {κ α : Type} [DecidableEq κ]
    (m : List (κ × α)) (k : κ) : (eraseAssoc m k).Sublist m := by
  induction m with
  | nil => exact List.Sublist.refl _
  | cons kv rest ih =>
    obtain ⟨k0, v0⟩ := kv
    by_cases h : k = k0
    · rw [show eraseAssoc ((k0, v0) :: rest) k = eraseAssoc rest k by
            simp [eraseAssoc, h]]
      exact ih.cons _
    · rw [show eraseAssoc ((k0, v0) :: rest) k =
            (k0, v0) :: eraseAssoc rest k by simp [eraseAssoc, h]]
      exact ih.cons₂ _

theorem lookupAssoc_of_mem_nodup {κ α : Type} [DecidableEq κ]
    {m : List (κ × α)} (hm : (m.map Prod.fst).Nodup) {k : κ} {v : α}
    (hkv : (k, v) ∈ m) : lookupAssoc m k = some v := by
  induction m with
  | nil => simp at hkv
  | cons kv rest ih =>
    obtain ⟨k0, v0⟩ := kv
    rw [List.map_cons, List.nodup_cons] at hm
    rcases List.mem_cons.mp hkv with h1 | h1
    · rw [Prod.mk.injEq] at h1
      simp [lookupAssoc, h1.1, h1.2]
    · have hne : k ≠ k0 := by
        intro h
        subst h
        exact hm.1 (List.mem_map.mpr ⟨(k, v), h1, rfl⟩)
      simp [lookupAssoc, hne, ih hm.2 h1]

/-! ## C9: follow-up request clears ToolChoice, and Tools except for
anthropic -/

/-- C9.  On the follow-up call the request has its ToolChoice cleared,
its messages are the originals plus the assistant message plus the tool
messages, and its Tools are cleared exactly when the provider name is
not anthropic. -/
theorem secondCallRequest_clears_toolChoice_and_tools
    (providerName : String) (req : ChatCompletionRequest)
    (reqMessages : List ChatCompletionMessage)
    (assistantMessage : ChatCompletionMessage)
    (llmCalls : List ChatCompletionMessage) :
    (prepareSecondCallRequest providerName req reqMessages assistantMessage
      llmCalls).toolChoice = none ∧
    (prepareSecondCallRequest providerName req reqMessages assistantMessage
      llmCalls).tools =
      (if providerName = "anthropic" then req.tools else []) ∧
    (prepareSecondCallRequest providerName req reqMessages assistantMessage
      llmCalls).messages = reqMessages ++ [assistantMessage] ++ llmCalls := by
  by_cases h : providerName = "anthropic" <;>
    simp [prepareSecondCallRequest, h]

/-! ## C3: the non-streaming usage accumulation -/

/-- C3.  At first-call usage (prompt 3, completion 5, total 8) and
second-call usage (prompt 7, completion 2, total 9), the code yields a
final TotalTokens of 14 = 9 + 5, copying CompletionTokens into the
captured totalUsage, while the claim requires 9 + 3 + 5 = 17; the
prompt and completion fields are incremented as claimed. -/
theorem nonStream_totalUsage_copies_completionTokens :
    nonStreamFinalUsage
      { promptTokens := 3, completionTokens := 5, totalTokens := 8 }
      { promptTokens := 7, completionTokens := 2, totalTokens := 9 } =
      { promptTokens := 10, completionTokens := 7, totalTokens := 14 } ∧
    (nonStreamFinalUsage
      { promptTokens := 3, completionTokens := 5, totalTokens := 8 }
      { promptTokens := 7, completionTokens := 2, totalTokens := 9 }
      ).totalTokens ≠ 9 + 3 + 5 := by
  constructor
  · rfl
  · decide

/-! ## C1: tool messages of the follow-up call -/

theorem llmCallMessages_callerCall (fnCalls : List ToolCall)
    (contents : Nat → String) :
    (llmCallMessages (callerCall fnCalls contents)).length = fnCalls.length ∧
    (llmCallMessages (callerCall fnCalls contents)).filter
        (fun msg => msg.role == "tool") =
      llmCallMessages (callerCall fnCalls contents) ∧
    ∀ i, i < fnCalls.length →
      (llmCallMessages (callerCall fnCalls contents)).getD i default =
        { role := "tool", content := contents i,
          toolCallID := (fnCalls.getD i default).id, toolCalls := [] } := by
  refine ⟨by simp [llmCallMessages, callerCall], ?_, ?_⟩
  · refine List.filter_eq_self.mpr ?_
    intro a ha
    rw [llmCallMessages, callerCall, List.map_map] at ha
    rcases List.mem_map.mp ha with ⟨i, _, rfl⟩
    rfl
  · intro i hi
    rw [llmCallMessages, callerCall, List.map_map]
    rw [List.getD_eq_getElem?_getD]
    simp [List.getElem?_map, List.getElem?_range, hi]

/-- C1, counterexample.  With an empty registry snapshot the first call
emits one tool call, but findTools drops it and zero tool messages are
appended to the follow-up call. -/
theorem toolMessages_count_counterexample :
    (llmCallMessages (callerCall
        (findTools []
          [{ index := none, id := "c1", type := "function",
             function := { name := "weather", arguments := "x" } }])
        (fun _ => ""))).length = 0 ∧
    ([{ index := none, id := "c1", type := "function",
        function := { name := "weather", arguments := "x" } }] :
      List ToolCall).length = 1 := by
  exact ⟨rfl, rfl⟩

/-- C1, amended.  The number of tool messages appended to the
follow-up call equals the number of tool calls retained by the
registry filter findTools (not the raw number emitted by the
provider); the i-th tool message carries the ToolCallID and the result
content of the i-th retained tool call. -/
theorem toolMessages_match_dispatched_calls (tools : List Tool)
    (toolCalls : List ToolCall) (contents : Nat → String) :
    (llmCallMessages (callerCall (findTools tools toolCalls) contents)).length
      = (findTools tools toolCalls).length ∧
    (llmCallMessages (callerCall (findTools tools toolCalls) contents)).filter
        (fun msg => msg.role == "tool") =
      llmCallMessages (callerCall (findTools tools toolCalls) contents) ∧
    ∀ i, i < (findTools tools toolCalls).length →
      (llmCallMessages
          (callerCall (findTools tools toolCalls) contents)).getD i default =
        { role := "tool", content := contents i,
          toolCallID := ((findTools tools toolCalls).getD i default).id,
          toolCalls := [] } :=
  llmCallMessages_callerCall (findTools tools toolCalls) contents

/-- C1, witness for the amended theorem at a registry holding the
called tool. -/
theorem toolMessages_match_dispatched_calls_witness :
    (llmCallMessages (callerCall
        (findTools [{ type := "function",
                      function := { name := "weather", description := "d" } }]
          [{ index := none, id := "c1", type := "function",
             function := { name := "weather", arguments := "x" } }])
        (fun _ => "sunny"))).getD 0 default =
      { role := "tool", content := "sunny", toolCallID := "c1",
        toolCalls := [] } := by
  have h := (toolMessages_match_dispatched_calls
    [{ type := "function",
       function := { name := "weather", description := "d" } }]
    [{ index := none, id := "c1", type := "function",
       function := { name := "weather", arguments := "x" } }]
    (fun _ => "sunny")).2.2 0 (by decide)
  rw [h]
  rfl

/-! ## C5: client-supplied tools short-circuit to pass-through -/

theorem firstPhaseLoop_true (chunks : List ChatCompletionStreamResponse) :
    ∀ (isFunctionCall : Bool) (m : List (Int × ToolCall))
      (usage : Int × Int × Int) (events : List StreamEvent),
    firstPhaseLoop true chunks isFunctionCall m usage events =
      some (FirstPhaseResult.finished
        (events ++ chunks.map StreamEvent.chunk ++ [StreamEvent.done])) := by
  induction chunks with
  | nil =>
    intro isFC m usage events
    simp [firstPhaseLoop]
  | cons c rest ih =>
    intro isFC m usage events
    rw [firstPhaseLoop]
    simp only [if_true]
    rw [ih]
    simp

/-- C5.  When the client request already carries tools,
addToolsToRequest leaves the request unchanged and reports
hasReqTools, and the streaming first call forwards every upstream
chunk verbatim, terminates with the stream-done marker, and finishes
without tool dispatch or a second call. -/
theorem hasReqTools_stream_passthrough (req : ChatCompletionRequest)
    (tools : List Tool) (chunks : List ChatCompletionStreamResponse)
    (h : req.tools ≠ []) :
    addToolsToRequest req tools = (req, true) ∧
    firstPhaseStream true chunks =
      some (FirstPhaseResult.finished
        (chunks.map StreamEvent.chunk ++ [StreamEvent.done])) := by
  constructor
  · have hlen : req.tools.length > 0 := List.length_pos.mpr h
    simp [addToolsToRequest, hlen]
  · rw [firstPhaseStream, firstPhaseLoop_true]
    simp

/-- C5, witness at a one-tool request and a two-chunk stream. -/
theorem hasReqTools_stream_passthrough_witness :
    addToolsToRequest
        { messages := [], toolChoice := none, stream := true,
          tools := [{ type := "function",
                      function := { name := "w", description := "" } }] }
        [] =
      ({ messages := [], toolChoice := none, stream := true,
         tools := [{ type := "function",
                     function := { name := "w", description := "" } }] },
        true) ∧
    firstPhaseStream true
        [{ promptFilterCount := 0, usage := none, choices := [] },
         { promptFilterCount := 1, usage := none, choices := [] }] =
      some (FirstPhaseResult.finished
        [StreamEvent.chunk { promptFilterCount := 0, usage := none, choices := [] },
         StreamEvent.chunk { promptFilterCount := 1, usage := none, choices := [] },
         StreamEvent.done]) := by
  have h := hasReqTools_stream_passthrough
    { messages := [], toolChoice := none, stream := true,
      tools := [{ type := "function",
                  function := { name := "w", description := "" } }] }
    []
    [{ promptFilterCount := 0, usage := none, choices := [] },
     { promptFilterCount := 1, usage := none, choices := [] }]
    (by decide)
  exact ⟨h.1, h.2⟩

/-! ## C7, C8: the system prompt operation -/

theorem opSystemPromptLoop_count (p : String) (op : SystemPromptOp) :
    ∀ (l : List ChatCompletionMessage) (n : Nat),
    (opSystemPromptLoop p op l n).2 =
      n + (l.filter (fun m => m.role == "system")).length := by
  intro l
  induction l with
  | nil => intro n; simp [opSystemPromptLoop]
  | cons msg rest ih =>
    intro n
    by_cases h : msg.role = "system"
    · simp only [opSystemPromptLoop]
      simp only [h, ne_eq, not_true_eq_false, if_false]
      by_cases hn : n = 0
      · subst hn
        simp only [if_true, List.filter_cons, h]
        rw [ih 1]
        simp
        omega
      · simp only [hn, if_false, List.filter_cons, h]
        rw [ih (n + 1)]
        simp
        omega
    · simp only [opSystemPromptLoop]
      simp only [h, ne_eq, not_false_eq_true, if_true, List.filter_cons]
      rw [ih n]
      simp [h]

theorem opSystemPromptLoop_filter_nonsystem (p : String) (op : SystemPromptOp) :
    ∀ (l : List ChatCompletionMessage) (n : Nat),
    (opSystemPromptLoop p op l n).1.filter (fun m => !(m.role == "system")) =
      l.filter (fun m => !(m.role == "system")) := by
  intro l
  induction l with
  | nil => intro n; simp [opSystemPromptLoop]
  | cons msg rest ih =>
    intro n
    by_cases h : msg.role = "system"
    · simp only [opSystemPromptLoop]
      simp only [h, ne_eq, not_true_eq_false, if_false]
      by_cases hn : n = 0
      · subst hn
        simp only [if_true, List.filter_cons, h]
        simp [ih 1, h]
      · simp [hn, List.filter_cons, h, ih (n + 1)]
    · simp only [opSystemPromptLoop]
      simp only [h, ne_eq, not_false_eq_true, if_true]
      simp [List.filter_cons, h, ih n]

theorem opSystemPromptLoop_filter_system_le (p : String) (op : SystemPromptOp) :
    ∀ (l : List ChatCompletionMessage) (n : Nat),
    ((opSystemPromptLoop p op l n).1.filter
        (fun m => m.role == "system")).length ≤ (if n = 0 then 1 else 0) := by
  intro l
  induction l with
  | nil => intro n; simp [opSystemPromptLoop]
  | cons msg rest ih =>
    intro n
    by_cases h : msg.role = "system"
    · simp only [opSystemPromptLoop]
      simp only [h, ne_eq, not_true_eq_false, if_false]
      by_cases hn : n = 0
      · subst hn
        simp only [if_true, List.filter_cons, h]
        have h2 := ih 1
        simp at h2
        simp [h]
        exact h2
      · simp only [hn, if_false]
        have h2 := ih (n + 1)
        simp at h2
        simp [hn]
        exact h2
    · simp only [opSystemPromptLoop]
      simp only [h, ne_eq, not_false_eq_true, if_true]
      simp only [List.filter_cons, h]
      simpa [h] using ih n

theorem opSystemPromptLoop_no_system (p : String) (op : SystemPromptOp) :
    ∀ (l : List ChatCompletionMessage) (n : Nat),
    (∀ m ∈ l, ¬(m.role = "system")) →
    opSystemPromptLoop p op l n = (l, n) := by
  intro l
  induction l with
  | nil => intro n _; rfl
  | cons msg rest ih =>
    intro n hl
    have h : ¬(msg.role = "system") := hl msg (List.mem_cons_self _ _)
    simp only [opSystemPromptLoop]
    simp only [h, ne_eq, not_false_eq_true, if_true]
    rw [ih n (fun m hm => hl m (List.mem_cons_of_mem _ hm))]

theorem OpSystemPrompt_spec (req : ChatCompletionRequest) (p : String)
    (op : SystemPromptOp) (hd : op ≠ SystemPromptOp.disabled)
    (ho : ¬(op = SystemPromptOp.overwrite ∧ p = "")) :
    OpSystemPrompt req p op =
      if (opSystemPromptLoop p op req.messages 0).2 = 0 ∧ p ≠ "" then
        { req with messages :=
            ({ role := "system", content := p, toolCallID := "",
               toolCalls := [] } : ChatCompletionMessage) :: req.messages }
      else
        { req with messages := (opSystemPromptLoop p op req.messages 0).1 } := by
  rw [OpSystemPrompt, if_neg hd, if_neg ho]

/-- C7, counterexample.  With the system prompt operation Disabled the
orchestrator leaves the request untouched, so a request carrying two
system messages keeps both: more than one system message survives. -/
theorem systemPrompt_disabled_two_system_counterexample :
    ¬ ((((OpSystemPrompt
        { messages :=
            [{ role := "system", content := "a", toolCallID := "",
               toolCalls := [] },
             { role := "system", content := "b", toolCallID := "",
               toolCalls := [] }],
          tools := [], toolChoice := none, stream := false }
        "" SystemPromptOp.disabled).messages.filter
          (fun m => m.role == "system")).length) ≤ 1) := by
  decide

/-- C7, amended.  When the operation actually rewrites the messages,
that is op is Prefix, or Overwrite with a non-empty prompt, second and
subsequent system messages are dropped, so at most one system message
survives, and the non-system messages are preserved in relative
order.  With op Disabled (or Overwrite with an empty prompt) the
request passes through unchanged. -/
theorem systemPrompt_at_most_one_system (req : ChatCompletionRequest)
    (p : String) (op : SystemPromptOp)
    (h : op = SystemPromptOp.prefixOp ∨
         (op = SystemPromptOp.overwrite ∧ p ≠ "")) :
    (((OpSystemPrompt req p op).messages.filter
        (fun m => m.role == "system")).length ≤ 1) ∧
    ((OpSystemPrompt req p op).messages.filter (fun m => !(m.role == "system")) =
      req.messages.filter (fun m => !(m.role == "system"))) := by
  have hd : op ≠ SystemPromptOp.disabled := by
    rcases h with h | h
    · rw [h]; intro hc; cases hc
    · rw [h.1]; intro hc; cases hc
  have ho : ¬(op = SystemPromptOp.overwrite ∧ p = "") := by
    rcases h with h | h
    · rw [h]; intro hc; cases hc.1
    · intro hc; exact h.2 hc.2
  rw [OpSystemPrompt_spec req p op hd ho]
  by_cases hc : (opSystemPromptLoop p op req.messages 0).2 = 0 ∧ p ≠ ""
  · rw [if_pos hc]
    have hcount := opSystemPromptLoop_count p op req.messages 0
    rw [hc.1] at hcount
    have hemp : req.messages.filter (fun m => m.role == "system") = [] :=
      List.eq_nil_of_length_eq_zero (by omega)
    constructor
    · rw [List.filter_cons]
      simp [hemp]
    · rw [List.filter_cons]
      simp
  · rw [if_neg hc]
    constructor
    · have := opSystemPromptLoop_filter_system_le p op req.messages 0
      simpa using this
    · exact opSystemPromptLoop_filter_nonsystem p op req.messages 0

/-- C7, witness at a request holding two system messages around a user
message, with the Prefix operation. -/
theorem systemPrompt_at_most_one_system_witness :
    (((OpSystemPrompt
        { messages :=
            [{ role := "system", content := "a", toolCallID := "",
               toolCalls := [] },
             { role := "user", content := "u", toolCallID := "",
               toolCalls := [] },
             { role := "system", content := "b", toolCallID := "",
               toolCalls := [] }],
          tools := [], toolChoice := none, stream := false }
        "P" SystemPromptOp.prefixOp).messages.filter
          (fun m => m.role == "system")).length ≤ 1) ∧
    ((OpSystemPrompt
        { messages :=
            [{ role := "system", content := "a", toolCallID := "",
               toolCalls := [] },
             { role := "user", content := "u", toolCallID := "",
               toolCalls := [] },
             { role := "system", content := "b", toolCallID := "",
               toolCalls := [] }],
          tools := [], toolChoice := none, stream := false }
        "P" SystemPromptOp.prefixOp).messages.filter
          (fun m => !(m.role == "system")) =
      ({ messages :=
           [{ role := "system", content := "a", toolCallID := "",
              toolCalls := [] },
            { role := "user", content := "u", toolCallID := "",
              toolCalls := [] },
            { role := "system", content := "b", toolCallID := "",
              toolCalls := [] }],
         tools := [], toolChoice := none, stream := false } :
        ChatCompletionRequest).messages.filter
          (fun m => !(m.role == "system"))) :=
  systemPrompt_at_most_one_system _ "P" SystemPromptOp.prefixOp (Or.inl rfl)

theorem opSystemPromptLoop_find_system (p : String) :
    ∀ (l : List ChatCompletionMessage) (m : ChatCompletionMessage),
    l.find? (fun x => x.role == "system") = some m →
    (opSystemPromptLoop p SystemPromptOp.prefixOp l 0).1.find?
        (fun x => x.role == "system") =
      some { role := "system", content := p ++ "\n" ++ m.content,
             toolCallID := "", toolCalls := [] } := by
  intro l
  induction l with
  | nil => intro m hm; simp at hm
  | cons msg rest ih =>
    intro m hm
    by_cases h : msg.role = "system"
    · rw [List.find?_cons_of_pos _ (by simp [h])] at hm
      rcases Option.some.inj hm with rfl
      simp only [opSystemPromptLoop]
      simp only [h, ne_eq, not_true_eq_false, if_false, if_true]
      rw [List.find?_cons_of_pos _ (by simp [h])]
    · rw [List.find?_cons_of_neg _ (by simp [h])] at hm
      simp only [opSystemPromptLoop]
      simp only [h, ne_eq, not_false_eq_true, if_true]
      rw [List.find?_cons_of_neg _ (by simp [h])]
      exact ih m hm

/-- C8, counterexample.  With an empty prompt and no system message in
the request, the Prefix operation prepends nothing: the message list is
unchanged and still holds no system message, although the claim
requires a new system message to be prepended whenever none exists. -/
theorem prefixOp_empty_prompt_no_prepend_counterexample :
    (OpSystemPrompt
        { messages :=
            [{ role := "user", content := "u", toolCallID := "",
               toolCalls := [] }],
          tools := [], toolChoice := none, stream := false }
        "" SystemPromptOp.prefixOp).messages =
      [{ role := "user", content := "u", toolCallID := "",
         toolCalls := [] }] ∧
    (OpSystemPrompt
        { messages :=
            [{ role := "user", content := "u", toolCallID := "",
               toolCalls := [] }],
          tools := [], toolChoice := none, stream := false }
        "" SystemPromptOp.prefixOp).messages.filter
      (fun m => m.role == "system") = [] := by
  exact ⟨rfl, rfl⟩

/-- C8, amended.  The Prefix operation prepends the prompt and a
newline to the content of the first system message; when the request
has no system message, a new system message carrying the prompt is
prepended provided the prompt is non-empty (an empty prompt with no
existing system message leaves the messages unchanged, against the
claim). -/
theorem prefixOp_prepends_prompt (req : ChatCompletionRequest) (p : String) :
    (∀ m, req.messages.find? (fun x => x.role == "system") = some m →
      (OpSystemPrompt req p SystemPromptOp.prefixOp).messages.find?
          (fun x => x.role == "system") =
        some { role := "system", content := p ++ "\n" ++ m.content,
               toolCallID := "", toolCalls := [] }) ∧
    (req.messages.find? (fun x => x.role == "system") = none → p ≠ "" →
      (OpSystemPrompt req p SystemPromptOp.prefixOp).messages =
        ({ role := "system", content := p, toolCallID := "",
           toolCalls := [] } : ChatCompletionMessage) :: req.messages) := by
  have hd : SystemPromptOp.prefixOp ≠ SystemPromptOp.disabled := by
    intro hc; cases hc
  have ho : ¬(SystemPromptOp.prefixOp = SystemPromptOp.overwrite ∧ p = "") := by
    intro hc; cases hc.1
  constructor
  · intro m hm
    rw [OpSystemPrompt_spec req p SystemPromptOp.prefixOp hd ho]
    have hmem := List.mem_of_find?_eq_some hm
    have hp := List.find?_some hm
    have hfil : m ∈ req.messages.filter (fun x => x.role == "system") :=
      List.mem_filter.mpr ⟨hmem, by simpa using hp⟩
    have hlen :
        0 < (req.messages.filter (fun x => x.role == "system")).length :=
      List.length_pos.mpr (List.ne_nil_of_mem hfil)
    have hcount :=
      opSystemPromptLoop_count p SystemPromptOp.prefixOp req.messages 0
    rw [if_neg (by intro hc; rw [hc.1] at hcount; omega)]
    exact opSystemPromptLoop_find_system p req.messages m hm
  · intro hnone hp
    rw [OpSystemPrompt_spec req p SystemPromptOp.prefixOp hd ho]
    have hall := List.find?_eq_none.mp hnone
    have hall' : ∀ m ∈ req.messages, ¬(m.role = "system") := by
      intro m hm
      have := hall m hm
      simpa using this
    rw [opSystemPromptLoop_no_system p SystemPromptOp.prefixOp
      req.messages 0 hall']
    rw [if_pos ⟨rfl, hp⟩]

/-- C8, witness for both branches of the amended theorem: a request
whose first system message has content a gets the prompt and a newline
prepended, and a request with no system message and a non-empty prompt
gets a fresh system message prepended. -/
theorem prefixOp_prepends_prompt_witness :
    (OpSystemPrompt
        { messages :=
            [{ role := "system", content := "a", toolCallID := "",
               toolCalls := [] },
             { role := "user", content := "u", toolCallID := "",
               toolCalls := [] }],
          tools := [], toolChoice := none, stream := false }
        "P" SystemPromptOp.prefixOp).messages.find?
        (fun x => x.role == "system") =
      some { role := "system", content := "P" ++ "\n" ++ "a",
             toolCallID := "", toolCalls := [] } ∧
    (OpSystemPrompt
        { messages :=
            [{ role := "user", content := "u", toolCallID := "",
               toolCalls := [] }],
          tools := [], toolChoice := none, stream := false }
        "P" SystemPromptOp.prefixOp).messages =
      ({ role := "system", content := "P", toolCallID := "",
         toolCalls := [] } : ChatCompletionMessage) ::
        [{ role := "user", content := "u", toolCallID := "",
           toolCalls := [] }] := by
  constructor
  · exact (prefixOp_prepends_prompt
      { messages :=
          [{ role := "system", content := "a", toolCallID := "",
             toolCalls := [] },
           { role := "user", content := "u", toolCallID := "",
             toolCalls := [] }],
        tools := [], toolChoice := none, stream := false } "P").1
      { role := "system", content := "a", toolCallID := "", toolCalls := [] }
      (by rfl)
  · exact (prefixOp_prepends_prompt
      { messages :=
          [{ role := "user", content := "u", toolCallID := "",
             toolCalls := [] }],
        tools := [], toolChoice := none, stream := false } "P").2
      (by rfl) (by decide)

/-! ## C2: streamed tool-call reassembly -/

theorem lookupAssoc_stepToolCallDelta (m : List (Int × ToolCall))
    (t : StreamToolCallDelta) (idx : Int) :
    lookupAssoc (stepToolCallDelta m t) idx =
      if idx = t.index then some (stepOne (lookupAssoc m t.index) t)
      else lookupAssoc m idx := by
  by_cases h : idx = t.index
  · rw [if_pos h, h, stepToolCallDelta, lookupAssoc_updateAssoc_self]
  · rw [if_neg h, stepToolCallDelta, lookupAssoc_updateAssoc_ne _ _ _ _ h]

theorem lookupAssoc_foldl_step (ds : List StreamToolCallDelta) :
    ∀ (m : List (Int × ToolCall)) (idx : Int),
    lookupAssoc (ds.foldl stepToolCallDelta m) idx =
      (ds.filter (fun t => t.index == idx)).foldl
        (fun o t => some (stepOne o t)) (lookupAssoc m idx) := by
  induction ds with
  | nil => intro m idx; rfl
  | cons t rest ih =>
    intro m idx
    rw [List.foldl_cons, List.filter_cons]
    by_cases h : t.index = idx
    · rw [if_pos (by simp [h]), List.foldl_cons, ih]
      congr 1
      rw [lookupAssoc_stepToolCallDelta, if_pos h.symm, h]
    · rw [if_neg (by simp [h]), ih]
      congr 1
      rw [lookupAssoc_stepToolCallDelta, if_neg (fun hh => h hh.symm)]

theorem concatArgs_foldl (ds : List StreamToolCallDelta) :
    ∀ s : String,
    ds.foldl (fun acc t => acc ++ t.arguments) s = s ++ concatArgs ds := by
  induction ds with
  | nil => intro s; rw [List.foldl_nil, concatArgs, List.foldl_nil,
      String.append_empty]
  | cons t rest ih =>
    intro s
    have h1 : concatArgs (t :: rest) = t.arguments ++ concatArgs rest := by
      rw [concatArgs, List.foldl_cons, ih, String.empty_append]
    rw [List.foldl_cons, ih, h1, String.append_assoc]

theorem concatArgs_cons (t : StreamToolCallDelta)
    (ds : List StreamToolCallDelta) :
    concatArgs (t :: ds) = t.arguments ++ concatArgs ds := by
  rw [concatArgs, List.foldl_cons, concatArgs_foldl, String.empty_append]

theorem stepOne_some_eq (item : ToolCall) (t : StreamToolCallDelta) :
    stepOne (some item) t =
      { index := item.index, id := item.id, type := item.type,
        function := { name := if t.name ≠ "" then t.name
                              else item.function.name,
                      arguments := item.function.arguments ++ t.arguments } } := by
  rw [stepOne]
  by_cases ha : t.arguments = "" <;> by_cases hn : t.name = "" <;>
    simp [ha, hn, String.append_empty]

theorem stepOne_none_eq (t : StreamToolCallDelta) :
    stepOne none t =
      { index := some t.index, id := t.id, type := t.type,
        function := { name := if t.name ≠ "" then t.name else "",
                      arguments := t.arguments } } := by
  rw [stepOne]
  by_cases ha : t.arguments = "" <;> by_cases hn : t.name = "" <;>
    simp [ha, hn, String.empty_append]

theorem foldl_stepOne_some (ds : List StreamToolCallDelta) :
    ∀ item : ToolCall,
    ds.foldl (fun o t => some (stepOne o t)) (some item) =
      some { index := item.index, id := item.id, type := item.type,
             function := { name := lastName item.function.name ds,
                           arguments :=
                             item.function.arguments ++ concatArgs ds } } := by
  induction ds with
  | nil =>
    intro item
    rw [List.foldl_nil, lastName, List.foldl_nil, concatArgs, List.foldl_nil,
      String.append_empty]
  | cons t rest ih =>
    intro item
    rw [List.foldl_cons, ih (stepOne (some item) t), stepOne_some_eq]
    rw [show lastName item.function.name (t :: rest) =
          lastName (if t.name ≠ "" then t.name else item.function.name) rest
        from rfl]
    rw [concatArgs_cons, ← String.append_assoc]

/-- C2.  For every index that appears among the streamed tool-call
deltas, the reassembled map holds at that index a tool call whose
arguments are the in-order concatenation of all argument fragments for
that index, whose id and type come from the first delta for that
index, and whose name is the last non-empty name fragment for that
index. -/
theorem streamed_toolcall_reassembly (deltas : List StreamToolCallDelta)
    (idx : Int)
    (h : deltas.filter (fun t => t.index == idx) ≠ []) :
    ∃ tc, lookupAssoc (reassembleToolCalls deltas) idx = some tc ∧
      tc.function.arguments =
        concatArgs (deltas.filter (fun t => t.index == idx)) ∧
      tc.id = ((deltas.filter (fun t => t.index == idx)).headD default).id ∧
      tc.type =
        ((deltas.filter (fun t => t.index == idx)).headD default).type ∧
      tc.index = some idx ∧
      tc.function.name =
        lastName "" (deltas.filter (fun t => t.index == idx)) := by
  rw [reassembleToolCalls, lookupAssoc_foldl_step]
  obtain ⟨t, rest, hds⟩ : ∃ t rest,
      deltas.filter (fun t => t.index == idx) = t :: rest := by
    cases hq : deltas.filter (fun t => t.index == idx) with
    | nil => exact absurd hq h
    | cons a l => exact ⟨a, l, rfl⟩
  have htidx : t.index = idx := by
    have hmem : t ∈ deltas.filter (fun t => t.index == idx) := by
      rw [hds]; exact List.mem_cons_self _ _
    have := (List.mem_filter.mp hmem).2
    simpa using this
  rw [hds, List.foldl_cons]
  rw [show lookupAssoc ([] : List (Int × ToolCall)) idx = none from rfl]
  rw [stepOne_none_eq, foldl_stepOne_some]
  refine ⟨_, rfl, ?_, ?_, ?_, ?_, ?_⟩
  · rw [concatArgs_cons]
  · rfl
  · rfl
  · rw [htidx]
  · rfl

/-- C2, witness at a three-delta stream interleaving two indices, the
second delta of index 0 carrying only an argument fragment. -/
theorem streamed_toolcall_reassembly_witness :
    ∃ tc, lookupAssoc (reassembleToolCalls
        ([{ index := 0, id := "c1", type := "function", name := "weather",
            arguments := "a" },
          { index := 1, id := "c2", type := "function", name := "news",
            arguments := "" },
          { index := 0, id := "", type := "", name := "",
            arguments := "b" }] : List StreamToolCallDelta)) 0 = some tc ∧
      tc.function.arguments =
        concatArgs (([{ index := 0, id := "c1", type := "function",
                        name := "weather", arguments := "a" },
                      { index := 1, id := "c2", type := "function",
                        name := "news", arguments := "" },
                      { index := 0, id := "", type := "", name := "",
                        arguments := "b" }] :
            List StreamToolCallDelta).filter (fun t => t.index == 0)) ∧
      tc.id = ((([{ index := 0, id := "c1", type := "function",
                    name := "weather", arguments := "a" },
                  { index := 1, id := "c2", type := "function",
                    name := "news", arguments := "" },
                  { index := 0, id := "", type := "", name := "",
                    arguments := "b" }] :
            List StreamToolCallDelta).filter
          (fun t => t.index == 0)).headD default).id ∧
      tc.type = ((([{ index := 0, id := "c1", type := "function",
                      name := "weather", arguments := "a" },
                    { index := 1, id := "c2", type := "function",
                      name := "news", arguments := "" },
                    { index := 0, id := "", type := "", name := "",
                      arguments := "b" }] :
            List StreamToolCallDelta).filter
          (fun t => t.index == 0)).headD default).type ∧
      tc.index = some 0 ∧
      tc.function.name =
        lastName "" (([{ index := 0, id := "c1", type := "function",
                         name := "weather", arguments := "a" },
                       { index := 1, id := "c2", type := "function",
                         name := "news", arguments := "" },
                       { index := 0, id := "", type := "", name := "",
                         arguments := "b" }] :
            List StreamToolCallDelta).filter (fun t => t.index == 0)) :=
  streamed_toolcall_reassembly
    [{ index := 0, id := "c1", type := "function", name := "weather",
       arguments := "a" },
     { index := 1, id := "c2", type := "function", name := "news",
       arguments := "" },
     { index := 0, id := "", type := "", name := "",
       arguments := "b" }] 0 (by decide)

/-! ## C6: registry re-registration and uniqueness -/

theorem foldl_eraseAssoc_sublist {κ α : Type} [DecidableEq κ]
    (tags : List κ) :
    ∀ l : List (κ × α),
    (tags.foldl (fun acc tag => eraseAssoc acc tag) l).Sublist l := by
  induction tags with
  | nil => intro l; exact List.Sublist.refl _
  | cons t rest ih =>
    intro l
    rw [List.foldl_cons]
    exact (ih (eraseAssoc l t)).trans (eraseAssoc_sublist l t)

theorem ListToolCalls_RegisterFunction_self (s : RegistryState)
    (appID : String) (tag : Nat) (fd : FunctionDefinition) :
    ListToolCalls (RegisterFunction s appID tag fd) appID =
      updateAssoc (ListToolCalls s appID) tag
        { type := "function", function := fd } := by
  rw [RegisterFunction, ListToolCalls, lookupAssoc_updateAssoc_self]
  rfl

theorem reachable_inner_nodup {s : RegistryState} (h : Reachable s) :
    ∀ appID, ((ListToolCalls s appID).map Prod.fst).Nodup := by
  induction h with
  | empty =>
    intro appID
    simp [ListToolCalls, emptyRegistry, lookupAssoc]
  | register appID tag fd _ ih =>
    intro app
    rename_i s' _
    by_cases happ : app = appID
    · rw [happ, ListToolCalls_RegisterFunction_self]
      exact nodup_keys_updateAssoc (ih appID) tag _
    · rw [RegisterFunction, ListToolCalls,
        lookupAssoc_updateAssoc_ne _ _ _ _ happ]
      exact ih app
  | unregister appID name _ ih =>
    intro app
    rename_i s' _
    rw [UnregisterFunction]
    cases hluk : lookupAssoc s' appID with
    | none => exact ih app
    | some appTools =>
      by_cases happ : app = appID
      · rw [happ, ListToolCalls, lookupAssoc_updateAssoc_self]
        have hsub := foldl_eraseAssoc_sublist
          ((appTools.filter (fun tv => tv.2.function.name = name)).map
            Prod.fst) appTools
        have hbase : ((ListToolCalls s' appID).map Prod.fst).Nodup := ih appID
        rw [ListToolCalls, hluk] at hbase
        exact List.Nodup.sublist (hsub.map Prod.fst) hbase
      · rw [ListToolCalls, lookupAssoc_updateAssoc_ne _ _ _ _ happ]
        exact ih app

/-- C6.  From any reachable registry state holding no tool with
definition defA for the given appID, registering defA and then defB at
the same tag leaves defB at that tag and no entry holding defA; and at
every reachable registry state each appID has at most one tool per
tag. -/
theorem registry_replaces_and_unique (s : RegistryState) (appID : String)
    (tag : Nat) (defA defB : FunctionDefinition)
    (hre : Reachable s) (hAB : defA ≠ defB)
    (hnoA : ∀ tv ∈ ListToolCalls s appID, tv.2.function ≠ defA) :
    (lookupAssoc (ListToolCalls
        (RegisterFunction (RegisterFunction s appID tag defA) appID tag defB)
        appID) tag =
      some { type := "function", function := defB }) ∧
    (∀ tv ∈ ListToolCalls
        (RegisterFunction (RegisterFunction s appID tag defA) appID tag defB)
        appID, tv.2.function ≠ defA) ∧
    (∀ t, Reachable t →
      ∀ app, ((ListToolCalls t app).map Prod.fst).Nodup) := by
  have h0 : ((ListToolCalls s appID).map Prod.fst).Nodup :=
    reachable_inner_nodup hre appID
  have h1 : ListToolCalls (RegisterFunction s appID tag defA) appID =
      updateAssoc (ListToolCalls s appID) tag
        { type := "function", function := defA } :=
    ListToolCalls_RegisterFunction_self s appID tag defA
  have h2 : ListToolCalls
      (RegisterFunction (RegisterFunction s appID tag defA) appID tag defB)
      appID =
      updateAssoc (updateAssoc (ListToolCalls s appID) tag
        { type := "function", function := defA }) tag
        { type := "function", function := defB } := by
    rw [ListToolCalls_RegisterFunction_self, h1]
  refine ⟨?_, ?_, fun t ht app => reachable_inner_nodup ht app⟩
  · rw [h2, lookupAssoc_updateAssoc_self]
  · intro tv htv
    rw [h2] at htv
    have h1nodup : ((updateAssoc (ListToolCalls s appID) tag
        { type := "function", function := defA }).map Prod.fst).Nodup :=
      nodup_keys_updateAssoc h0 tag _
    rcases mem_updateAssoc_nodup h1nodup htv with heq | ⟨hmem, hne⟩
    · rw [heq]
      intro hf
      exact hAB hf.symm
    · rcases mem_updateAssoc_nodup h0 hmem with heq2 | ⟨hmem2, _⟩
      · exact absurd (by rw [heq2]) hne
      · exact hnoA tv hmem2

/-- C6, witness from the empty registry, re-registering tag 16 from
definition A to definition B. -/
theorem registry_replaces_and_unique_witness :
    (lookupAssoc (ListToolCalls
        (RegisterFunction (RegisterFunction emptyRegistry "app" 16
          { name := "A", description := "" }) "app" 16
          { name := "B", description := "" }) "app") 16 =
      some { type := "function",
             function := { name := "B", description := "" } }) ∧
    (∀ tv ∈ ListToolCalls
        (RegisterFunction (RegisterFunction emptyRegistry "app" 16
          { name := "A", description := "" }) "app" 16
          { name := "B", description := "" }) "app",
      tv.2.function ≠ { name := "A", description := "" }) ∧
    (∀ t, Reachable t →
      ∀ app, ((ListToolCalls t app).map Prod.fst).Nodup) :=
  registry_replaces_and_unique emptyRegistry "app" 16
    { name := "A", description := "" } { name := "B", description := "" }
    Reachable.empty (by decide) (by decide)

/-! ## C10: mapToSliceTools density and bounds -/

theorem mapToSliceToolsAux_length :
    ∀ (l : List (Int × ToolCall)) (arr out : List ToolCall),
    mapToSliceToolsAux l arr = some out → out.length = arr.length := by
  intro l
  induction l with
  | nil =>
    intro arr out h
    rcases Option.some.inj h with rfl
    rfl
  | cons kv rest ih =>
    intro arr out h
    obtain ⟨k, v⟩ := kv
    rw [mapToSliceToolsAux] at h
    by_cases hb : 0 ≤ k ∧ k.toNat < arr.length
    · rw [if_pos hb] at h
      rw [ih _ _ h, List.length_set]
    · rw [if_neg hb] at h
      cases h

theorem mapToSliceToolsAux_isSome :
    ∀ (l : List (Int × ToolCall)) (arr : List ToolCall),
    (mapToSliceToolsAux l arr).isSome ↔
      ∀ kv ∈ l, 0 ≤ kv.1 ∧ kv.1.toNat < arr.length := by
  intro l
  induction l with
  | nil => intro arr; simp [mapToSliceToolsAux]
  | cons kv rest ih =>
    intro arr
    obtain ⟨k, v⟩ := kv
    rw [mapToSliceToolsAux]
    by_cases hb : 0 ≤ k ∧ k.toNat < arr.length
    · rw [if_pos hb, ih (arr.set k.toNat v)]
      simp only [List.length_set]
      constructor
      · intro hr kv2 hkv2
        rcases List.mem_cons.mp hkv2 with h1 | h1
        · rw [h1]; exact hb
        · exact hr kv2 h1
      · intro hr kv2 hkv2
        exact hr kv2 (List.mem_cons_of_mem _ hkv2)
    · rw [if_neg hb]
      simp only [Option.isSome_none, Bool.false_eq_true, false_iff]
      intro hr
      exact hb (hr (k, v) (List.mem_cons_self _ _))

theorem mapToSliceToolsAux_getElem_of_not_mem :
    ∀ (l : List (Int × ToolCall)) (arr out : List ToolCall) (p : Nat),
    mapToSliceToolsAux l arr = some out →
    (∀ kv ∈ l, kv.1.toNat ≠ p) → out[p]? = arr[p]? := by
  intro l
  induction l with
  | nil =>
    intro arr out p h _
    rcases Option.some.inj h with rfl
    rfl
  | cons kv rest ih =>
    intro arr out p h hp
    obtain ⟨k, v⟩ := kv
    rw [mapToSliceToolsAux] at h
    by_cases hb : 0 ≤ k ∧ k.toNat < arr.length
    · rw [if_pos hb] at h
      rw [ih _ _ p h (fun kv2 hkv2 => hp kv2 (List.mem_cons_of_mem _ hkv2))]
      exact List.getElem?_set_ne (hp (k, v) (List.mem_cons_self _ _))
    · rw [if_neg hb] at h
      cases h

theorem mapToSliceToolsAux_getElem :
    ∀ (l : List (Int × ToolCall)) (arr out : List ToolCall),
    (l.map Prod.fst).Nodup →
    mapToSliceToolsAux l arr = some out →
    ∀ kv ∈ l, out[kv.1.toNat]? = some kv.2 := by
  intro l
  induction l with
  | nil => intro arr out _ _ kv hkv; simp at hkv
  | cons kv0 rest ih =>
    intro arr out hnd h kv hkv
    obtain ⟨k, v⟩ := kv0
    rw [List.map_cons, List.nodup_cons] at hnd
    rw [mapToSliceToolsAux] at h
    by_cases hb : 0 ≤ k ∧ k.toNat < arr.length
    · rw [if_pos hb] at h
      rcases List.mem_cons.mp hkv with h1 | h1
      · rcases h1 with rfl
        have hbound := (mapToSliceToolsAux_isSome rest (arr.set k.toNat v)).mp
          (by rw [h]; rfl)
        have hrest : ∀ kv2 ∈ rest, kv2.1.toNat ≠ k.toNat := by
          intro kv2 hkv2
          have hk2 := hbound kv2 hkv2
          have hne : kv2.1 ≠ k := by
            intro hc
            exact hnd.1 (List.mem_map.mpr ⟨kv2, hkv2, hc⟩)
          omega
        rw [mapToSliceToolsAux_getElem_of_not_mem rest _ out k.toNat h hrest]
        rw [List.getElem?_set_self]
        exact hb.2
      · exact ih _ _ hnd.2 h kv h1
    · rw [if_neg hb] at h
      cases h

theorem keys_perm_range (m : List (Int × ToolCall))
    (hnd : (m.map Prod.fst).Nodup)
    (hb : ∀ kv ∈ m, 0 ≤ kv.1 ∧ kv.1.toNat < m.length) :
    (m.map Prod.fst).Perm ((List.range m.length).map Int.ofNat) := by
  have hsub : m.map Prod.fst ⊆ (List.range m.length).map Int.ofNat := by
    intro k hk
    rcases List.mem_map.mp hk with ⟨kv, hkv, rfl⟩
    rcases hb kv hkv with ⟨h0, hlt⟩
    refine List.mem_map.mpr ⟨kv.1.toNat, List.mem_range.mpr hlt, ?_⟩
    exact_mod_cast Int.toNat_of_nonneg h0
  have hlen : ((List.range m.length).map Int.ofNat).length ≤
      (m.map Prod.fst).length := by
    simp
  exact (List.subperm_of_subset hnd hsub).perm_of_length_le hlen

/-- C10.  With the distinct keys a Go map guarantees, mapToSliceTools
succeeds (no out-of-range slice write) exactly when the keys are the
contiguous range 0 .. size-1; on success the result has the size of
the map and holds each entry at the position given by its key. -/
theorem mapToSliceTools_dense_iff (m : List (Int × ToolCall))
    (hnd : (m.map Prod.fst).Nodup) :
    ((mapToSliceTools m).isSome ↔
      (m.map Prod.fst).Perm ((List.range m.length).map Int.ofNat)) ∧
    (∀ arr, mapToSliceTools m = some arr → arr.length = m.length ∧
      ∀ kv ∈ m, arr[kv.1.toNat]? = some kv.2) := by
  constructor
  · constructor
    · intro hs
      have hb := (mapToSliceToolsAux_isSome m
        (List.replicate m.length default)).mp hs
      rw [List.length_replicate] at hb
      exact keys_perm_range m hnd hb
    · intro hperm
      apply (mapToSliceToolsAux_isSome m (List.replicate m.length default)).mpr
      rw [List.length_replicate]
      intro kv hkv
      have hk : kv.1 ∈ (List.range m.length).map Int.ofNat :=
        hperm.mem_iff.mp (List.mem_map.mpr ⟨kv, hkv, rfl⟩)
      rcases List.mem_map.mp hk with ⟨i, hi, hik⟩
      have hi' := List.mem_range.mp hi
      have hik' : kv.1 = (i : Int) := by exact_mod_cast hik.symm
      omega
  · intro arr harr
    refine ⟨?_, ?_⟩
    · rw [mapToSliceToolsAux_length m _ arr harr, List.length_replicate]
    · intro kv hkv
      exact mapToSliceToolsAux_getElem m _ arr hnd harr kv hkv

/-- C10, witness at the two-entry map with keys 1 and 0 (dense, so the
conversion succeeds) whose entries land at the positions of their
keys. -/
theorem mapToSliceTools_dense_iff_witness :
    ((mapToSliceTools
        [((1 : Int),
          ({ index := none, id := "c1", type := "function", function := { name := "a", arguments := "" } } : ToolCall)),
         ((0 : Int),
          ({ index := none, id := "c2", type := "function", function := { name := "b", arguments := "" } } : ToolCall))]).isSome ↔
      (([((1 : Int),
          ({ index := none, id := "c1", type := "function", function := { name := "a", arguments := "" } } : ToolCall)),
         ((0 : Int),
          ({ index := none, id := "c2", type := "function", function := { name := "b", arguments := "" } } : ToolCall))].map
          Prod.fst).Perm ((List.range 2).map Int.ofNat))) ∧
    (∀ arr, mapToSliceTools
        [((1 : Int),
          ({ index := none, id := "c1", type := "function", function := { name := "a", arguments := "" } } : ToolCall)),
         ((0 : Int),
          ({ index := none, id := "c2", type := "function", function := { name := "b", arguments := "" } } : ToolCall))] =
        some arr →
      arr.length = 2 ∧
      ∀ kv ∈ [((1 : Int),
          ({ index := none, id := "c1", type := "function", function := { name := "a", arguments := "" } } : ToolCall)),
         ((0 : Int),
          ({ index := none, id := "c2", type := "function", function := { name := "b", arguments := "" } } : ToolCall))],
        arr[kv.1.toNat]? = some kv.2) :=
  mapToSliceTools_dense_iff
    [((1 : Int),
      ({ index := none, id := "c1", type := "function", function := { name := "a", arguments := "" } } : ToolCall)),
     ((0 : Int),
      ({ index := none, id := "c2", type := "function", function := { name := "b", arguments := "" } } : ToolCall))]
    (by decide)

/-! ## C4: register frame codec round trip -/

theorem decVarint_encVarintAux :
    ∀ (fuel n : Nat), n ≤ fuel → ∀ r : List Nat,
    decVarint (encVarintAux fuel n ++ r) = some (n, r) := by
  intro fuel
  induction fuel with
  | zero =>
    intro n hn r
    have hn0 : n = 0 := Nat.le_zero.mp hn
    subst hn0
    simp [encVarintAux, decVarint]
  | succ fuel ih =>
    intro n hn r
    rw [encVarintAux]
    by_cases h : n < 128
    · rw [if_pos h]
      simp [decVarint, h]
    · rw [if_neg h]
      rw [List.cons_append]
      rw [show decVarint ((n % 128 + 128) :: (encVarintAux fuel (n / 128) ++ r)) =
            if n % 128 + 128 < 128 then some (n % 128 + 128, encVarintAux fuel (n / 128) ++ r)
            else match decVarint (encVarintAux fuel (n / 128) ++ r) with
              | none => none
              | some (m, r2) => some (m * 128 + (n % 128 + 128 - 128), r2)
          from rfl]
      rw [if_neg (by omega)]
      rw [ih (n / 128) (by omega) r]
      show some (n / 128 * 128 + (n % 128 + 128 - 128), r) = some (n, r)
      have : n / 128 * 128 + (n % 128 + 128 - 128) = n := by omega
      rw [this]

theorem decVarint_encVarint (n : Nat) (r : List Nat) :
    decVarint (encVarint n ++ r) = some (n, r) :=
  decVarint_encVarintAux n n (Nat.le_refl n) r

theorem parseBlock_encBlock (t : Nat) (p r : List Nat) :
    parseBlock (encBlock t p ++ r) = some ((t, p), r) := by
  have hshape : encBlock t p ++ r = t :: (encVarint p.length ++ (p ++ r)) := by
    simp [encBlock]
  rw [hshape]
  rw [show parseBlock (t :: (encVarint p.length ++ (p ++ r))) =
        match decVarint (encVarint p.length ++ (p ++ r)) with
        | none => none
        | some (len, rest2) =>
          if len ≤ rest2.length then some ((t, rest2.take len), rest2.drop len)
          else none
      from rfl]
  rw [decVarint_encVarint]
  show (if p.length ≤ (p ++ r).length then
      some ((t, (p ++ r).take p.length), (p ++ r).drop p.length)
    else none) = some ((t, p), r)
  rw [if_pos (by simp), List.take_left, List.drop_left]

theorem encFields_cons (f : Nat × List Nat) (rest : List (Nat × List Nat)) :
    encFields (f :: rest) = encBlock f.1 f.2 ++ encFields rest := by
  rw [encFields, List.map_cons, List.flatten_cons]
  rfl

theorem parseFieldsAux_encFields :
    ∀ (fs : List (Nat × List Nat)) (fuel : Nat),
    (encFields fs).length ≤ fuel →
    parseFieldsAux fuel (encFields fs) = some fs := by
  intro fs
  induction fs with
  | nil =>
    intro fuel _
    rw [show encFields [] = [] from rfl]
    cases fuel <;> rfl
  | cons f rest ih =>
    intro fuel h
    obtain ⟨t, p⟩ := f
    rw [encFields_cons] at h ⊢
    have hshape : encBlock t p ++ encFields rest =
        t :: (encVarint p.length ++ p ++ encFields rest) := by
      rw [encBlock]
      simp [List.append_assoc]
    rw [hshape] at h ⊢
    cases fuel with
    | zero => simp at h
    | succ fuel =>
      have hb : parseBlock (t :: (encVarint p.length ++ p ++ encFields rest)) =
          some ((t, p), encFields rest) := by
        rw [← hshape]
        exact parseBlock_encBlock t p (encFields rest)
      rw [show parseFieldsAux (fuel + 1)
            (t :: (encVarint p.length ++ p ++ encFields rest)) =
          match parseBlock (t :: (encVarint p.length ++ p ++ encFields rest)) with
          | none => none
          | some (f2, rest2) =>
            match parseFieldsAux fuel rest2 with
            | none => none
            | some fs2 => some (f2 :: fs2)
          from rfl]
      rw [hb]
      have hlen : (encFields rest).length ≤ fuel := by
        rw [List.length_cons] at h
        have := List.length_append (encVarint p.length ++ p) (encFields rest)
        omega
      show (match parseFieldsAux fuel (encFields rest) with
        | none => none
        | some fs2 => some ((t, p) :: fs2)) = some ((t, p) :: rest)
      rw [ih fuel hlen]

theorem parseFields_encFields (fs : List (Nat × List Nat)) :
    parseFields (encFields fs) = some fs :=
  parseFieldsAux_encFields fs (encFields fs).length (Nat.le_refl _)

theorem lookupLast_of_mem_nodup (fields : List (Nat × List Nat))
    (hnd : (fields.map Prod.fst).Nodup) {t : Nat} {v : List Nat}
    (hkv : (t, v) ∈ fields) : lookupLast fields t = some v := by
  rw [lookupLast]
  refine lookupAssoc_of_mem_nodup ?_ (List.mem_reverse.mpr hkv)
  rw [List.map_reverse]
  exact List.nodup_reverse.mpr hnd

theorem decBe32_be32 (n : Nat) (h : n < 2 ^ 32) :
    decBe32 (be32 n) = some n := by
  rw [be32]
  rw [show decBe32 [n / 2 ^ 24 % 256, n / 2 ^ 16 % 256, n / 2 ^ 8 % 256,
        n % 256] =
      some (n / 2 ^ 24 % 256 * 2 ^ 24 + n / 2 ^ 16 % 256 * 2 ^ 16 +
        n / 2 ^ 8 % 256 * 2 ^ 8 + n % 256) from rfl]
  congr 1
  norm_num
  omega

theorem decode_encBlock_perm (f : AIRegisterFunctionFrame)
    (htag : f.tag < 2 ^ 32) (fs : List (Nat × List Nat))
    (hperm : fs.Perm (registerFrameFields f)) :
    decodeAIRegisterFunctionFrame
      (encBlock aiRegisterFunctionFrameType (encFields fs)) = some f := by
  have hkeys : (fs.map Prod.fst).Perm
      [tagAIRegisterFunctionAppID, tagAIRegisterFunctionName,
       tagAIRegisterFunctionTag, tagAIRegisterFunctionDefinition] := by
    have := hperm.map Prod.fst
    simpa [registerFrameFields] using this
  have hnd : (fs.map Prod.fst).Nodup := by
    refine hkeys.nodup_iff.mpr ?_
    rw [show tagAIRegisterFunctionAppID = 1 from rfl,
      show tagAIRegisterFunctionName = 2 from rfl,
      show tagAIRegisterFunctionTag = 3 from rfl,
      show tagAIRegisterFunctionDefinition = 4 from rfl]
    decide
  have l1 : lookupLast fs tagAIRegisterFunctionAppID = some f.appID :=
    lookupLast_of_mem_nodup fs hnd
      (hperm.mem_iff.mpr (by rw [registerFrameFields]; simp))
  have l2 : lookupLast fs tagAIRegisterFunctionName = some f.name :=
    lookupLast_of_mem_nodup fs hnd
      (hperm.mem_iff.mpr (by rw [registerFrameFields]; simp))
  have l3 : lookupLast fs tagAIRegisterFunctionTag = some (be32 f.tag) :=
    lookupLast_of_mem_nodup fs hnd
      (hperm.mem_iff.mpr (by rw [registerFrameFields]; simp))
  have l4 : lookupLast fs tagAIRegisterFunctionDefinition = some f.definition :=
    lookupLast_of_mem_nodup fs hnd
      (hperm.mem_iff.mpr (by rw [registerFrameFields]; simp))
  have h1 : parseBlock (encBlock aiRegisterFunctionFrameType (encFields fs)) =
      some ((aiRegisterFunctionFrameType, encFields fs), []) := by
    have := parseBlock_encBlock aiRegisterFunctionFrameType (encFields fs) []
    rwa [List.append_nil] at this
  rw [decodeAIRegisterFunctionFrame]
  simp only [h1, parseFields_encFields, l1, l2, l3, l4, decBe32_be32 f.tag htag]

/-- C4.  Decoding the encoding of any AIRegisterFunctionFrame (whose
tag fits in 32 bits) yields the frame back, and decoding a node whose
four inner TLV field blocks are written in any order yields the same
frame. -/
theorem registerFrame_roundtrip_order_independent
    (f : AIRegisterFunctionFrame) (fs : List (Nat × List Nat))
    (htag : f.tag < 2 ^ 32) (hperm : fs.Perm (registerFrameFields f)) :
    decodeAIRegisterFunctionFrame (encodeAIRegisterFunctionFrame f) = some f ∧
    decodeAIRegisterFunctionFrame
      (encBlock aiRegisterFunctionFrameType (encFields fs)) = some f :=
  ⟨by
    rw [encodeAIRegisterFunctionFrame]
    exact decode_encBlock_perm f htag _ (List.Perm.refl _),
   decode_encBlock_perm f htag fs hperm⟩

/-- C4, witness at a concrete frame with a tag above one byte, the
reordered encoding writing the fields in reversed order. -/
theorem registerFrame_roundtrip_order_independent_witness :
    decodeAIRegisterFunctionFrame (encodeAIRegisterFunctionFrame
      { appID := [97, 98], name := [110], tag := 70000,
        definition := [1, 2, 3] }) =
      some { appID := [97, 98], name := [110], tag := 70000,
             definition := [1, 2, 3] } ∧
    decodeAIRegisterFunctionFrame
      (encBlock aiRegisterFunctionFrameType (encFields
        [(tagAIRegisterFunctionDefinition, [1, 2, 3]),
         (tagAIRegisterFunctionTag, be32 70000),
         (tagAIRegisterFunctionName, [110]),
         (tagAIRegisterFunctionAppID, [97, 98])])) =
      some { appID := [97, 98], name := [110], tag := 70000,
             definition := [1, 2, 3] } :=
  registerFrame_roundtrip_order_independent
    { appID := [97, 98], name := [110], tag := 70000,
      definition := [1, 2, 3] }
    [(tagAIRegisterFunctionDefinition, [1, 2, 3]),
     (tagAIRegisterFunctionTag, be32 70000),
     (tagAIRegisterFunctionName, [110]),
     (tagAIRegisterFunctionAppID, [97, 98])]
    (by decide) (by decide)

end Yomo
